import Mathlib

/-!
Verification of the ccodemerge core (single-file C source, v1.2).

C strings are modelled as `List Char`; `strcmp` equality is list equality and
`strcmp`-order is lexicographic order on character codes (for UTF-8 encoded
paths, byte-wise order and codepoint order coincide).  Filesystem interaction
(`lstat`, `stat`, `readlink`, `realpath`, `readdir`, `fopen`) is modelled by
oracle records, so each run is a deterministic function of the oracle.  The
`stderr` diagnostic stream is not modelled; theorems speak about control flow,
stores and the bytes written to `merged.txt`.
-/

namespace CCodemerge

/-- `strcmp(a,b) <= 0` as a boolean: lexicographic comparison on character
codes, mirroring the byte-wise comparison of C `strcmp`. -/
def strLeB : List Char → List Char → Bool
  | [], _ => true
  | _ :: _, [] => false
  | a :: as, b :: bs => if a = b then strLeB as bs else decide (a.toNat < b.toNat)

/-- The ordering used by `qsort` via `compare_strings` (= `strcmp <= 0`). -/
def strLe (a b : List Char) : Prop := strLeB a b = true

instance : DecidableRel strLe := fun a b => instDecidableEqBool (strLeB a b) true

/-- List of directories to exclude from processing (`EXCLUDED_DIRS`). -/
def EXCLUDED_DIRS : List (List Char) :=
  [".cache".toList, ".env".toList, ".idea".toList, ".venv".toList,
   "build".toList, "builddir".toList, "cmake-build-debug".toList,
   "cmake-build-release".toList, "dist".toList, "env".toList,
   "node_modules".toList, "target".toList, "venv".toList, ".git".toList,
   ".vscode".toList, ".vs".toList, ".pytest_cache".toList,
   "__pycache__".toList, "out".toList, "bin".toList, "obj".toList,
   "Debug".toList, "Release".toList, "x64".toList, "x86".toList,
   "deps".toList, "vendor".toList, "external".toList, "third_party".toList,
   ".github".toList, ".gitlab".toList, "coverage".toList,
   "docs/_build".toList, "logs".toList]

/-- `is_excluded_dir`: linear scan of `EXCLUDED_DIRS` with `strcmp` equality. -/
def is_excluded_dir (dirname : List Char) : Bool :=
  EXCLUDED_DIRS.any (fun e => e == dirname)

/-- Split a string at every `/`, keeping empty segments (the plain
`/`-delimited segment decomposition of a path). -/
def splitSegAux (cur : List Char) : List Char → List (List Char)
  | [] => [cur.reverse]
  | c :: cs => if c = '/' then cur.reverse :: splitSegAux [] cs else splitSegAux (c :: cur) cs

/-- All `/`-delimited segments of a path, including empty ones. -/
def splitSeg (p : List Char) : List (List Char) := splitSegAux [] p

/-- The token sequence produced by `strtok(path, "/")`: the nonempty maximal
runs of non-`/` characters, i.e. the nonempty `/`-delimited segments. -/
def strtokSlash (p : List Char) : List (List Char) :=
  (splitSeg p).filter (fun t => !t.isEmpty)

/-- `contains_excluded_dir`: tokenize the path with `strtok(_, "/")` and test
each token with `is_excluded_dir`. -/
def contains_excluded_dir (p : List Char) : Bool :=
  (strtokSlash p).any is_excluded_dir

theorem is_excluded_dir_iff (d : List Char) :
    is_excluded_dir d = true ↔ d ∈ EXCLUDED_DIRS := by
  unfold is_excluded_dir
  rw [List.any_eq_true]
  constructor
  · rintro ⟨e, he, hbeq⟩
    rw [beq_iff_eq] at hbeq
    exact hbeq ▸ he
  · intro hd
    exact ⟨d, hd, beq_self_eq_true d⟩

theorem splitSegAux_no_slash (cs : List Char) :
    ∀ cur : List Char, '/' ∉ cur →
      ∀ t ∈ splitSegAux cur cs, '/' ∉ t := by
  induction cs with
  | nil =>
      intro cur hcur t ht
      simp [splitSegAux] at ht
      subst ht
      simpa using hcur
  | cons c cs ih =>
      intro cur hcur t ht
      by_cases hc : c = '/'
      · rw [splitSegAux, if_pos hc] at ht
        rcases List.mem_cons.mp ht with h | h
        · subst h; simpa using hcur
        · exact ih [] (by simp) t h
      · rw [splitSegAux, if_neg hc] at ht
        refine ih (c :: cur) ?_ t ht
        intro hmem
        rcases List.mem_cons.mp hmem with h | h
        · exact hc h.symm
        · exact hcur h

/-- Every `/`-delimited segment of a path is free of `/`. -/
theorem splitSeg_no_slash (p : List Char) : ∀ t ∈ splitSeg p, '/' ∉ t :=
  splitSegAux_no_slash p [] (by simp)

theorem empty_not_excluded : is_excluded_dir [] = false := by decide

theorem strtokSlash_mem_iff (p : List Char) (t : List Char) :
    t ∈ strtokSlash p ↔ t ∈ splitSeg p ∧ t ≠ [] := by
  simp [strtokSlash, List.mem_filter, List.isEmpty_iff]

theorem empty_not_mem_excluded : [] ∉ EXCLUDED_DIRS := by
  intro h
  have := (is_excluded_dir_iff []).mpr h
  rw [empty_not_excluded] at this
  exact Bool.false_ne_true this

/-- C6: the exclusion predicate holds exactly when some `/`-delimited segment
of the path equals an entry of the static exclusion set.  A segment that only
contains an excluded name as a proper substring is a different list of
characters and so never satisfies the right-hand side; a matching segment at
any depth suffices (the existential ranges over all segments). -/
theorem contains_excluded_dir_iff_segment (p : List Char) :
    contains_excluded_dir p = true ↔ ∃ s ∈ splitSeg p, s ∈ EXCLUDED_DIRS := by
  unfold contains_excluded_dir
  rw [List.any_eq_true]
  constructor
  · rintro ⟨t, ht, hex⟩
    exact ⟨t, ((strtokSlash_mem_iff p t).mp ht).1, (is_excluded_dir_iff t).mp hex⟩
  · rintro ⟨s, hs, hmem⟩
    refine ⟨s, (strtokSlash_mem_iff p s).mpr ⟨hs, ?_⟩, (is_excluded_dir_iff s).mpr hmem⟩
    intro hnil
    exact empty_not_mem_excluded (hnil ▸ hmem)

/-- The `"docs/_build"` entry of `EXCLUDED_DIRS`. -/
def docsBuildEntry : List Char := "docs/_build".toList

/-- The exclusion check performed against the exclusion set with the
`"docs/_build"` entry removed (comparison definition for the inertness
claim). -/
def contains_excluded_dir_without_docs_build (p : List Char) : Bool :=
  (strtokSlash p).any
    (fun t => (EXCLUDED_DIRS.filter (fun e => e != docsBuildEntry)).any (fun e => e == t))

theorem any_filtered_eq_is_excluded (t : List Char) (ht : t ≠ docsBuildEntry) :
    ((EXCLUDED_DIRS.filter (fun e => e != docsBuildEntry)).any (fun e => e == t))
      = is_excluded_dir t := by
  rw [Bool.eq_iff_iff, List.any_eq_true, is_excluded_dir_iff]
  constructor
  · rintro ⟨e, he, hbeq⟩
    rw [beq_iff_eq] at hbeq
    exact hbeq ▸ (List.mem_filter.mp he).1
  · intro hmem
    refine ⟨t, List.mem_filter.mpr ⟨hmem, ?_⟩, beq_self_eq_true t⟩
    exact bne_iff_ne.mpr ht

theorem slash_mem_docsBuildEntry : '/' ∈ docsBuildEntry := by decide

/-- C10: the `"docs/_build"` exclusion entry is inert.  The exclusion check
splits the path at `/` before comparing, so no token ever equals a string
containing `/`; dropping the entry from the set changes the predicate on no
path, and a concrete path under a `docs/_build` directory is not excluded
(neither `docs` nor `_build` alone is in the set) even though the entry is
listed in `EXCLUDED_DIRS`. -/
theorem docs_build_entry_inert :
    (∀ p : List Char,
        contains_excluded_dir p = contains_excluded_dir_without_docs_build p) ∧
    contains_excluded_dir "./docs/_build/conf.c".toList = false ∧
    docsBuildEntry ∈ EXCLUDED_DIRS := by
  refine ⟨?_, by decide, by decide⟩
  intro p
  unfold contains_excluded_dir contains_excluded_dir_without_docs_build
  rw [Bool.eq_iff_iff, List.any_eq_true, List.any_eq_true]
  constructor
  · rintro ⟨t, ht, hex⟩
    refine ⟨t, ht, ?_⟩
    rw [any_filtered_eq_is_excluded t ?_]
    · exact hex
    · intro heq
      have hnoslash := splitSeg_no_slash p t ((strtokSlash_mem_iff p t).mp ht).1
      exact hnoslash (heq ▸ slash_mem_docsBuildEntry)
  · rintro ⟨t, ht, hex⟩
    refine ⟨t, ht, ?_⟩
    rw [any_filtered_eq_is_excluded t ?_] at hex
    · exact hex
    · intro heq
      have hnoslash := splitSeg_no_slash p t ((strtokSlash_mem_iff p t).mp ht).1
      exact hnoslash (heq ▸ slash_mem_docsBuildEntry)

/-- Enumeration of supported file categories (`FileCategory`), in the C
declaration order; `CAT_COUNT` is the "not recognized" result. -/
inductive FileCategory where
  | CAT_MAKEFILE
  | CAT_MESON
  | CAT_CMAKE
  | CAT_AUTOTOOLS
  | CAT_NINJA
  | CAT_BAZEL
  | CAT_QMAKE
  | CAT_SCONS
  | CAT_HEADER
  | CAT_SOURCE
  | CAT_COUNT
  deriving DecidableEq, Repr

open FileCategory

/-- Position of a category in the C enumeration (also the merge order). -/
def catIdx : FileCategory → Nat
  | CAT_MAKEFILE => 0
  | CAT_MESON => 1
  | CAT_CMAKE => 2
  | CAT_AUTOTOOLS => 3
  | CAT_NINJA => 4
  | CAT_BAZEL => 5
  | CAT_QMAKE => 6
  | CAT_SCONS => 7
  | CAT_HEADER => 8
  | CAT_SOURCE => 9
  | CAT_COUNT => 10

/-- A classification rule (`BuildFile`): a filename-or-suffix pattern plus
its category. -/
structure BuildFile where
  filename : List Char
  category : FileCategory
  deriving DecidableEq, Repr

/-- The ordered rule table (`BUILD_FILES`), in C declaration order. -/
def BUILD_FILES : List BuildFile :=
  [⟨"Makefile".toList, CAT_MAKEFILE⟩,
   ⟨"makefile".toList, CAT_MAKEFILE⟩,
   ⟨"GNUmakefile".toList, CAT_MAKEFILE⟩,
   ⟨"meson.build".toList, CAT_MESON⟩,
   ⟨"meson_options.txt".toList, CAT_MESON⟩,
   ⟨"CMakeLists.txt".toList, CAT_CMAKE⟩,
   ⟨"CMakeCache.txt".toList, CAT_CMAKE⟩,
   ⟨".cmake".toList, CAT_CMAKE⟩,
   ⟨"configure.ac".toList, CAT_AUTOTOOLS⟩,
   ⟨"configure.in".toList, CAT_AUTOTOOLS⟩,
   ⟨"Makefile.am".toList, CAT_AUTOTOOLS⟩,
   ⟨"Makefile.in".toList, CAT_AUTOTOOLS⟩,
   ⟨"build.ninja".toList, CAT_NINJA⟩,
   ⟨".ninja".toList, CAT_NINJA⟩,
   ⟨"WORKSPACE".toList, CAT_BAZEL⟩,
   ⟨"BUILD".toList, CAT_BAZEL⟩,
   ⟨"BUILD.bazel".toList, CAT_BAZEL⟩,
   ⟨".bzl".toList, CAT_BAZEL⟩,
   ⟨".pro".toList, CAT_QMAKE⟩,
   ⟨".pri".toList, CAT_QMAKE⟩,
   ⟨"SConstruct".toList, CAT_SCONS⟩,
   ⟨"SConscript".toList, CAT_SCONS⟩]

/-- The suffix of `filename` starting at the last `.`, when a dot exists
(`strrchr(filename, '.')`). -/
def lastDotSuffix : List Char → Option (List Char)
  | [] => none
  | c :: cs =>
    match lastDotSuffix cs with
    | some d => some d
    | none => if c = '.' then some (c :: cs) else none

/-- `has_extension`: the substring from the last dot equals `ext` exactly. -/
def has_extension (filename ext : List Char) : Bool :=
  match lastDotSuffix filename with
  | none => false
  | some d => d == ext

/-- `ends_with`: `str` ends with the literal `suffix`. -/
def ends_with (str sfx : List Char) : Bool :=
  if str.length < sfx.length then false
  else str.drop (str.length - sfx.length) == sfx

/-- The rule-table scan of `categorize_file`: first matching rule wins; a rule
matches by exact filename equality, or — when its pattern starts with `.` —
by `ends_with`. -/
def findRule (fname : List Char) : List BuildFile → Option FileCategory
  | [] => none
  | r :: rs =>
    if fname == r.filename then some r.category
    else if r.filename.head? = some '.' && ends_with fname r.filename then some r.category
    else findRule fname rs

/-- `categorize_file`: build-system rules in declaration order, then the
hardcoded header extensions, then the source extensions, else `CAT_COUNT`. -/
def categorize_file (fname : List Char) : FileCategory :=
  match findRule fname BUILD_FILES with
  | some c => c
  | none =>
    if has_extension fname ".h".toList || has_extension fname ".hpp".toList
        || has_extension fname ".hxx".toList || has_extension fname ".hh".toList then
      CAT_HEADER
    else if has_extension fname ".c".toList || has_extension fname ".cpp".toList
        || has_extension fname ".cxx".toList || has_extension fname ".cc".toList then
      CAT_SOURCE
    else CAT_COUNT

/-- C5: every filename that equals the pattern of an exact-match rule (a rule
whose pattern does not start with `.`) classifies to that rule's category —
no suffix rule elsewhere in the table can preempt it.  Rule evaluation is the
declaration-order scan of `findRule`, first match winning. -/
theorem exact_rule_wins (r : BuildFile) (hr : r ∈ BUILD_FILES)
    (hexact : r.filename.head? ≠ some '.') :
    categorize_file r.filename = r.category := by
  revert hr hexact
  revert r
  decide

/-- Witness for C5 at the `CMakeCache.txt` rule, which the `.cmake` suffix
rule (listed later) would also match. -/
theorem exact_rule_wins_witness :
    (⟨"CMakeCache.txt".toList, CAT_CMAKE⟩ : BuildFile) ∈ BUILD_FILES ∧
    categorize_file "CMakeCache.txt".toList = CAT_CMAKE :=
  ⟨by decide,
   exact_rule_wins ⟨"CMakeCache.txt".toList, CAT_CMAKE⟩ (by decide) (by decide)⟩

/-- File kind as reported by `stat`/`lstat`: symbolic link, directory, or
anything else (regular files and the like, which fall through to
classification). -/
inductive FKind where
  | lnk
  | dir
  | reg
  deriving DecidableEq, Repr

/-- Filesystem oracle for the traversal phase.  `lstat` does not follow
symlinks, `stat` does; `none` models the syscall failing (returning -1).
`readdir` lists the entry names of a directory (the `.` and `..` entries may
be present; the code skips them), `opendirOk` models whether `opendir`
succeeds, `readlink` yields the raw link target and `realpath` the canonical
absolute path. -/
structure TFS where
  lstat : List Char → Option FKind
  stat : List Char → Option FKind
  readlink : List Char → Option (List Char)
  realpath : List Char → Option (List Char)
  opendirOk : List Char → Bool
  readdir : List Char → List (List Char)

/-- The per-category path lists (`FileList categories[CAT_COUNT]`). -/
def Store := FileCategory → List (List Char)

/-- The empty store (`init_filelist` for every category). -/
def initStore : Store := fun _ => []

/-- `add_to_filelist(&categories[cat], path)`: append at one category. -/
def appendStore (st : Store) (cat : FileCategory) (p : List Char) : Store :=
  fun c => if c = cat then st c ++ [p] else st c

/-- The characters of `path` before its last `/` (the `*last_slash = 0`
truncation in `resolve_symlink`), or `none` when `path` has no slash. -/
def dirnameOf : List Char → Option (List Char)
  | [] => none
  | c :: cs =>
    match dirnameOf cs with
    | some d => some (c :: d)
    | none => if c = '/' then some [] else none

/-- `resolve_symlink`: read the link target; an absolute target (leading `/`)
is returned as is, a relative one is joined to the directory of `path` when
`path` contains a slash. -/
def resolve_symlink (fs : TFS) (path : List Char) : Option (List Char) :=
  match fs.readlink path with
  | none => none
  | some t =>
    if t.head? = some '/' then some t
    else
      match dirnameOf path with
      | none => some t
      | some d => some (d ++ '/' :: t)

/-- `process_entry`: `lstat` the entry; resolve and `stat` a symlink (either
failure is the error return -1, modelled as `none`); a directory is accepted
without classification; classify the basename, drop unrecognized files and
hidden files outside the five allowed build categories; `realpath` the file
(failure is the error return) and append it to its category. -/
def process_entry (fs : TFS) (path fname : List Char) (st : Store) : Option Store :=
  match fs.lstat path with
  | none => none
  | some k =>
    let resolved : Option (Option (List Char) × FKind) :=
      if k = FKind.lnk then
        match resolve_symlink fs path with
        | none => none
        | some ap =>
          match fs.stat ap with
          | none => none
          | some k2 => some (some ap, k2)
      else some (none, k)
    match resolved with
    | none => none
    | some (actual, kind) =>
      if kind = FKind.dir then some st
      else
        let cat := categorize_file fname
        if cat = CAT_COUNT then some st
        else if fname.head? = some '.' && !(cat == CAT_MAKEFILE) && !(cat == CAT_MESON)
            && !(cat == CAT_CMAKE) && !(cat == CAT_NINJA) && !(cat == CAT_BAZEL) then
          some st
        else
          match fs.realpath (actual.getD path) with
          | none => none
          | some abs => some (appendStore st cat abs)

/-- `MAX_PATH_LENGTH`. -/
def MAX_PATH_LENGTH : Nat := 4096

/-- The body of the `readdir` loop of `scan_directory`, processing the listed
entry names in order.  `recurse` is the recursive call into a subdirectory
(`scan_directory` at the next fuel level).  Mirrors the C control flow: skip
`.`/`..`, skip over-long paths, skip excluded paths, abort (`none`) when
`process_entry` fails, `lstat` again and descend when the child itself is a
directory, aborting when the descent fails. -/
def scanEntries (fs : TFS) (recurse : List Char → Store → Option Store)
    (dirPath : List Char) : List (List Char) → Store → Option Store
  | [], st => some st
  | n :: rest, st =>
    if n = ".".toList || n = "..".toList then scanEntries fs recurse dirPath rest st
    else
      let sub := dirPath ++ '/' :: n
      if MAX_PATH_LENGTH ≤ dirPath.length + 1 + n.length then
        scanEntries fs recurse dirPath rest st
      else if contains_excluded_dir sub then scanEntries fs recurse dirPath rest st
      else
        match process_entry fs sub n st with
        | none => none
        | some st1 =>
          match fs.lstat sub with
          | none => scanEntries fs recurse dirPath rest st1
          | some k =>
            if k = FKind.dir then
              match recurse sub st1 with
              | none => none
              | some st2 => scanEntries fs recurse dirPath rest st2
            else scanEntries fs recurse dirPath rest st1

/-- `scan_directory`, with a fuel bound on recursion depth (the C version
recurses on the call stack; every theorem below is stated at sufficient
fuel).  `none` is the error return -1 (or fuel exhaustion). -/
def scan_directory (fs : TFS) : Nat → List Char → Store → Option Store
  | 0, _, _ => none
  | fuel + 1, dirPath, st =>
    if fs.opendirOk dirPath then
      scanEntries fs (scan_directory fs fuel) dirPath (fs.readdir dirPath) st
    else none

/-- Filesystem oracle for the merge phase.  `canOpen` models `fopen`
success, `statSize` the `stat` size query (`none` = stat failure),
`readOk` whether the `fread` loop completes without error, `content` the
bytes of the file, and `outOk` whether `fopen("merged.txt","w")`
succeeds. -/
structure WFS where
  canOpen : List Char → Bool
  statSize : List Char → Option Nat
  readOk : List Char → Bool
  content : List Char → List Char
  outOk : Bool

/-- The one-time banner (`VERSION` is "1.2"). -/
def preamble : List Char :=
  "# Created by CCodemerge v1.2\n# https://github.com/Lennart1978/ccodemerge\n\n".toList

/-- The per-file header line. -/
def fileHeader (p : List Char) : List Char :=
  "\nFile: ".toList ++ p ++ "\n\n".toList

/-- The per-file footer line. -/
def fileFooter (p : List Char) : List Char :=
  "\n-------------------------- End of ".toList ++ p ++ " --------------------------\n".toList

/-- `write_file`: open the file (failure is the fatal -1, `none`); a failed
`stat` or a zero size returns success with nothing written and the
first-file flag untouched; otherwise emit the preamble (first time only),
header, raw content and footer.  Result: `(new first-file flag, bytes
appended to the output)`.  A read error is the fatal -1 (partial output
before a failed read is not modelled; no theorem depends on it). -/
def write_file (fs : WFS) (path : List Char) (isFirst : Bool) : Option (Bool × List Char) :=
  if fs.canOpen path then
    match fs.statSize path with
    | none => some (isFirst, [])
    | some 0 => some (isFirst, [])
    | some (_ + 1) =>
      if fs.readOk path then
        some (false,
          (if isFirst then preamble else []) ++ fileHeader path
            ++ fs.content path ++ fileFooter path)
      else none
  else none

/-- The merge loop of `main` over a flat list of paths, threading the
`is_first` flag and concatenating the emitted bytes; the first `write_file`
failure aborts (`none`). -/
def mergeFiles (fs : WFS) : List (List Char) → Bool → Option (Bool × List Char)
  | [], isFirst => some (isFirst, [])
  | p :: ps, isFirst =>
    (write_file fs p isFirst).bind (fun r =>
      (mergeFiles fs ps r.1).map (fun r2 => (r2.1, r.2 ++ r2.2)))

/-- The `qsort(…, compare_strings)` step.  `qsort` returns a permutation of
its input that is sorted for `strLe`; since `strLe` is total, transitive and
antisymmetric that permutation is unique, so insertion sort computes exactly
the array `qsort` leaves behind. -/
def sortPaths (l : List (List Char)) : List (List Char) :=
  List.insertionSort strLe l

/-- The ten real categories in merge order (the `for (cat = 0; cat <
CAT_COUNT; cat++)` loop). -/
def catList : List FileCategory :=
  [CAT_MAKEFILE, CAT_MESON, CAT_CMAKE, CAT_AUTOTOOLS, CAT_NINJA,
   CAT_BAZEL, CAT_QMAKE, CAT_SCONS, CAT_HEADER, CAT_SOURCE]

/-- The `(category, path)` sequence in the order `main` passes paths to
`write_file`: categories in enumeration order, each category's list sorted. -/
def mainEmission (st : Store) : List (FileCategory × List Char) :=
  catList.flatMap (fun c => (sortPaths (st c)).map (fun p => (c, p)))

/-- The flat path sequence `main` writes, in order. -/
def emissionPaths (st : Store) : List (List Char) :=
  catList.flatMap (fun c => sortPaths (st c))

/-- The bytes `main` writes into `merged.txt` (`none` = aborted merge). -/
def mergeOutput (fs : WFS) (st : Store) : Option (List Char) :=
  (mergeFiles fs (emissionPaths st) true).map (fun r => r.2)

/-- `total_files`: the count summed over the categories before the write
loop, which `main` prints in the completion message. -/
def total_files (st : Store) : Nat :=
  (catList.map (fun c => (st c).length)).sum

/-- A path that receives header/content/footer framing during the merge. -/
def writtenP (fs : WFS) (p : List Char) : Bool :=
  fs.canOpen p &&
    (match fs.statSize p with
     | some (_ + 1) => fs.readOk p
     | _ => false)

/-- A path that `write_file` silently skips (stat failure or zero size). -/
def skippedP (fs : WFS) (p : List Char) : Bool :=
  fs.canOpen p &&
    (match fs.statSize p with
     | some (_ + 1) => false
     | _ => true)

/-- Number of files actually framed into the output. -/
def writtenCount (fs : WFS) (st : Store) : Nat :=
  ((emissionPaths st).filter (writtenP fs)).length

/-- Number of enumerated files the merge silently skips. -/
def skippedCount (fs : WFS) (st : Store) : Nat :=
  ((emissionPaths st).filter (skippedP fs)).length

/-- Exit code and the count printed by the success message of `main`. -/
structure MainResult where
  exitCode : Nat
  report : Option Nat
  deriving DecidableEq, Repr

/-- `main`: scan from `"."`, create the output, merge, report.  Any scan
failure, output-creation failure or merge failure yields `EXIT_FAILURE`
(1); on success the completion message reports `total_files`. -/
def ccmain (tfs : TFS) (wfs : WFS) (fuel : Nat) : MainResult :=
  match scan_directory tfs fuel ".".toList initStore with
  | none => ⟨1, none⟩
  | some st =>
    if wfs.outOk then
      match mergeFiles wfs (emissionPaths st) true with
      | none => ⟨1, none⟩
      | some _ => ⟨0, some (total_files st)⟩
    else ⟨1, none⟩

/-- The scan root `"."`. -/
def dotPath : List Char := ".".toList

/-- Example tree for C2: the scan root holds a dangling symlink `./broken`
(its target `nowhere` does not stat) followed by a sibling `sib.c`. -/
def exTFS2 : TFS where
  lstat := fun p =>
    if p = "./broken".toList then some FKind.lnk
    else if p = "./sib.c".toList then some FKind.reg
    else if p = dotPath then some FKind.dir
    else none
  stat := fun _ => none
  readlink := fun p => if p = "./broken".toList then some "nowhere".toList else none
  realpath := fun p => some p
  opendirOk := fun _ => true
  readdir := fun p => if p = dotPath then ["broken".toList, "sib.c".toList] else []

/-- A merge oracle on which every file opens and reads fine. -/
def exWFS0 : WFS := ⟨fun _ => true, fun _ => some 1, fun _ => true, fun _ => [], true⟩

/-- Example tree for C3: `./sym` is a symlink to the real directory `/real`,
which contains the source file `inner.c`. -/
def exTFS3 : TFS where
  lstat := fun p =>
    if p = "./sym".toList then some FKind.lnk
    else if p = dotPath then some FKind.dir
    else if p = "./sym/inner.c".toList || p = "/real/inner.c".toList then some FKind.reg
    else none
  stat := fun p => if p = "/real".toList then some FKind.dir else none
  readlink := fun p => if p = "./sym".toList then some "/real".toList else none
  realpath := fun p => some p
  opendirOk := fun _ => true
  readdir := fun p =>
    if p = dotPath then ["sym".toList]
    else if p = "./sym".toList || p = "/real".toList then ["inner.c".toList]
    else []

/-- Example store for C4: one accepted source file. -/
def exStore4 : Store :=
  fun c => if c = CAT_SOURCE then ["/a/empty.c".toList] else []

/-- Example merge oracle for C4: every file stats as zero bytes. -/
def exWFS4 : WFS := ⟨fun _ => true, fun _ => some 0, fun _ => true, fun _ => [], true⟩

theorem Char.toNat_inj_cc {a b : Char} (h : a.toNat = b.toNat) : a = b :=
  Char.ext (UInt32.toNat.inj h)

theorem strLeB_total (a b : List Char) : strLeB a b = true ∨ strLeB b a = true := by
  induction a generalizing b with
  | nil => left; rfl
  | cons x xs ih =>
      cases b with
      | nil => right; rfl
      | cons y ys =>
          by_cases hxy : x = y
          · subst hxy
            rcases ih ys with h | h
            · left; simpa [strLeB] using h
            · right; simpa [strLeB] using h
          · rcases Nat.lt_or_ge x.toNat y.toNat with h | h
            · left
              rw [strLeB, if_neg hxy]
              exact decide_eq_true h
            · right
              have hne : y.toNat ≠ x.toNat := by
                intro he
                exact hxy (Char.toNat_inj_cc he).symm
              have hlt : y.toNat < x.toNat := Nat.lt_of_le_of_ne h hne
              rw [strLeB, if_neg (fun he => hxy he.symm)]
              exact decide_eq_true hlt

theorem strLeB_trans {a b c : List Char} (hab : strLeB a b = true)
    (hbc : strLeB b c = true) : strLeB a c = true := by
  induction a generalizing b c with
  | nil => rfl
  | cons x xs ih =>
      cases b with
      | nil => simp [strLeB] at hab
      | cons y ys =>
          cases c with
          | nil => simp [strLeB] at hbc
          | cons z zs =>
              by_cases hxy : x = y
              · subst hxy
                rw [strLeB, if_pos rfl] at hab
                by_cases hyz : x = z
                · subst hyz
                  rw [strLeB, if_pos rfl] at hbc ⊢
                  exact ih hab hbc
                · rw [strLeB, if_neg hyz] at hbc ⊢
                  exact hbc
              · rw [strLeB, if_neg hxy] at hab
                by_cases hyz : y = z
                · subst hyz
                  rw [strLeB, if_neg hxy]
                  exact hab
                · rw [strLeB, if_neg hyz] at hbc
                  have h1 : x.toNat < y.toNat := of_decide_eq_true hab
                  have h2 : y.toNat < z.toNat := of_decide_eq_true hbc
                  have hxz : x ≠ z := by
                    intro he
                    subst he
                    exact Nat.lt_asymm h1 h2
                  rw [strLeB, if_neg hxz]
                  exact decide_eq_true (Nat.lt_trans h1 h2)

theorem strLeB_antisymm {a b : List Char} (hab : strLeB a b = true)
    (hba : strLeB b a = true) : a = b := by
  induction a generalizing b with
  | nil =>
      cases b with
      | nil => rfl
      | cons y ys => simp [strLeB] at hba
  | cons x xs ih =>
      cases b with
      | nil => simp [strLeB] at hab
      | cons y ys =>
          by_cases hxy : x = y
          · subst hxy
            rw [strLeB, if_pos rfl] at hab hba
            rw [ih hab hba]
          · rw [strLeB, if_neg hxy] at hab
            rw [strLeB, if_neg (fun he => hxy he.symm)] at hba
            have h1 : x.toNat < y.toNat := of_decide_eq_true hab
            have h2 : y.toNat < x.toNat := of_decide_eq_true hba
            exact absurd h2 (Nat.lt_asymm h1)

instance : IsTotal (List Char) strLe := ⟨strLeB_total⟩

instance : IsTrans (List Char) strLe := ⟨fun _ _ _ => strLeB_trans⟩

instance : IsAntisymm (List Char) strLe := ⟨fun _ _ => strLeB_antisymm⟩

theorem sortPaths_perm (l : List (List Char)) : List.Perm (sortPaths l) l :=
  List.perm_insertionSort strLe l

theorem sortPaths_sorted (l : List (List Char)) : List.Pairwise strLe (sortPaths l) :=
  List.sorted_insertionSort strLe l

/-- Two stores holding the same files per category sort to the same arrays:
the sorted permutation of a list is unique under the total antisymmetric
`strcmp` order. -/
theorem sortPaths_eq_of_perm {l₁ l₂ : List (List Char)} (h : List.Perm l₁ l₂) :
    sortPaths l₁ = sortPaths l₂ :=
  List.eq_of_perm_of_sorted
    (((sortPaths_perm l₁).trans h).trans (sortPaths_perm l₂).symm)
    (sortPaths_sorted l₁) (sortPaths_sorted l₂)

theorem process_entry_broken_symlink (fs : TFS) (path fname : List Char) (st : Store)
    (hlnk : fs.lstat path = some FKind.lnk)
    (hres : (resolve_symlink fs path).bind fs.stat = none) :
    process_entry fs path fname st = none := by
  unfold process_entry
  rw [hlnk]
  cases hr : resolve_symlink fs path with
  | none => simp [hr]
  | some ap =>
      rw [hr, Option.some_bind] at hres
      simp [hr, hres]

/-- A directory entry (directly, or a symlink whose resolved target stats as
a directory) is accepted without classification: `process_entry` leaves the
store unchanged and succeeds. -/
theorem process_entry_dir (fs : TFS) (path fname : List Char) (st : Store)
    (h : fs.lstat path = some FKind.dir ∨
      (fs.lstat path = some FKind.lnk ∧
        ∃ ap, resolve_symlink fs path = some ap ∧ fs.stat ap = some FKind.dir)) :
    process_entry fs path fname st = some st := by
  rcases h with hdir | ⟨hlnk, ap, hr, htgt⟩
  · unfold process_entry
    rw [hdir]
    simp
  · unfold process_entry
    rw [hlnk]
    simp [hr, htgt]

/-- C7: among regular files whose basename starts with `.`, exactly those
whose category is one of make, meson, cmake, ninja, bazel survive to the
store (via `realpath` resolution); every other classified dotfile — headers,
sources, qmake, scons, autotools — is dropped with the store unchanged. -/
theorem hidden_file_policy (fs : TFS) (p n : List Char) (st : Store)
    (hreg : fs.lstat p = some FKind.reg)
    (hne : categorize_file n ≠ CAT_COUNT)
    (hdot : n.head? = some '.') :
    process_entry fs p n st =
      if categorize_file n = CAT_MAKEFILE ∨ categorize_file n = CAT_MESON
          ∨ categorize_file n = CAT_CMAKE ∨ categorize_file n = CAT_NINJA
          ∨ categorize_file n = CAT_BAZEL then
        match fs.realpath p with
        | none => none
        | some abs => some (appendStore st (categorize_file n) abs)
      else some st := by
  unfold process_entry
  rw [hreg]
  by_cases hset : categorize_file n = CAT_MAKEFILE ∨ categorize_file n = CAT_MESON
      ∨ categorize_file n = CAT_CMAKE ∨ categorize_file n = CAT_NINJA
      ∨ categorize_file n = CAT_BAZEL
  · rw [if_pos hset]
    rcases hset with h | h | h | h | h <;> simp [h, hne, hdot]
  · rw [if_neg hset]
    push_neg at hset
    obtain ⟨h1, h2, h3, h4, h5⟩ := hset
    simp [hne, hdot, h1, h2, h3, h4, h5]

/-- C2 (amended) theorem: when the first directory entry is neither `.` nor
`..`, fits the path limit, is not excluded, and its processing fails — as a
broken symlink does — the whole `scan_directory` call returns the error
value: the remaining siblings are never examined and the failure propagates
to `main`'s failure exit. -/
theorem entry_error_aborts_walk (fs : TFS) (d e : List Char)
    (rest : List (List Char)) (st : Store) (fuel : Nat)
    (hopen : fs.opendirOk d = true)
    (hdir : fs.readdir d = e :: rest)
    (hdot : e ≠ ".".toList) (hdotdot : e ≠ "..".toList)
    (hlen : d.length + 1 + e.length < MAX_PATH_LENGTH)
    (hexcl : contains_excluded_dir (d ++ '/' :: e) = false)
    (hfail : process_entry fs (d ++ '/' :: e) e st = none) :
    scan_directory fs (fuel + 1) d st = none := by
  unfold scan_directory
  rw [hopen, if_pos rfl, hdir]
  unfold scanEntries
  rw [if_neg (by simp only [Bool.or_eq_true, decide_eq_true_eq]; rintro (h | h); exacts [hdot h, hdotdot h])]
  rw [if_neg (Nat.not_le.mpr hlen)]
  rw [if_neg (by simp [hexcl])]
  rw [hfail]

/-- C2 counterexample: in `exTFS2` the entry `./broken` is a dangling
symlink (its resolved target does not stat) with a healthy sibling
`sib.c`; the walk aborts with the error value instead of skipping the
entry, and `main` exits with failure status 1 — refuting "never aborts
the whole walk or changes the exit status from 0". -/
theorem broken_symlink_aborts_cx :
    exTFS2.lstat "./broken".toList = some FKind.lnk ∧
    (resolve_symlink exTFS2 "./broken".toList).bind exTFS2.stat = none ∧
    categorize_file "sib.c".toList = CAT_SOURCE ∧
    scan_directory exTFS2 2 dotPath initStore = none ∧
    ccmain exTFS2 exWFS0 2 = ⟨1, none⟩ :=
  ⟨by decide, by decide, by decide, by rfl, by rfl⟩

/-- Witness for the amended C2 theorem at the `exTFS2` tree. -/
theorem entry_error_aborts_walk_witness :
    exTFS2.readdir dotPath = "broken".toList :: ["sib.c".toList] ∧
    process_entry exTFS2 (dotPath ++ '/' :: "broken".toList) "broken".toList initStore
      = none ∧
    scan_directory exTFS2 2 dotPath initStore = none :=
  ⟨by decide, by rfl,
   entry_error_aborts_walk exTFS2 dotPath "broken".toList ["sib.c".toList]
     initStore 1 (by decide) (by decide) (by decide) (by decide) (by decide)
     (by decide) (by rfl)⟩

/-- C3 (amended) theorem: a child whose `lstat` kind is a symlink whose
resolved target is a directory is not classified — the store comes back
unchanged — and the walk does not descend into it: the result holds for
every fuel value and never consults the listing of the target directory,
because the recursion test is `S_ISDIR` on the `lstat` of the child path,
which a symlink fails. -/
theorem symlinked_dir_not_classified_not_traversed (fs : TFS) (d e ap : List Char)
    (st : Store) (fuel : Nat)
    (hopen : fs.opendirOk d = true)
    (hdir : fs.readdir d = [e])
    (hdot : e ≠ ".".toList) (hdotdot : e ≠ "..".toList)
    (hlen : d.length + 1 + e.length < MAX_PATH_LENGTH)
    (hexcl : contains_excluded_dir (d ++ '/' :: e) = false)
    (hlnk : fs.lstat (d ++ '/' :: e) = some FKind.lnk)
    (hres : resolve_symlink fs (d ++ '/' :: e) = some ap)
    (htgt : fs.stat ap = some FKind.dir) :
    scan_directory fs (fuel + 1) d st = some st := by
  unfold scan_directory
  rw [hopen, if_pos rfl, hdir]
  unfold scanEntries
  rw [if_neg (by simp only [Bool.or_eq_true, decide_eq_true_eq]; rintro (h | h); exacts [hdot h, hdotdot h])]
  rw [if_neg (Nat.not_le.mpr hlen)]
  rw [if_neg (by simp [hexcl])]
  rw [process_entry_dir fs (d ++ '/' :: e) e st (Or.inr ⟨hlnk, ap, hres, htgt⟩)]
  rw [hlnk]
  simp [scanEntries]

/-- C3 counterexample: in `exTFS3` the entry `./sym` is a symlink to the
real directory `/real`, which contains the classifiable source file
`inner.c`; the finished walk ends with an empty source category — the
symlinked directory was not traversed like a real subdirectory. -/
theorem symlinked_dir_not_traversed_cx :
    exTFS3.lstat "./sym".toList = some FKind.lnk ∧
    resolve_symlink exTFS3 "./sym".toList = some "/real".toList ∧
    exTFS3.stat "/real".toList = some FKind.dir ∧
    exTFS3.readdir "./sym".toList = ["inner.c".toList] ∧
    categorize_file "inner.c".toList = CAT_SOURCE ∧
    (scan_directory exTFS3 3 dotPath initStore).map (fun st => st CAT_SOURCE)
      = some [] :=
  ⟨by decide, by decide, by decide, by decide, by decide, by rfl⟩

/-- Witness for the amended C3 theorem at the `exTFS3` tree. -/
theorem symlinked_dir_not_traversed_witness :
    exTFS3.readdir dotPath = ["sym".toList] ∧
    scan_directory exTFS3 1 dotPath initStore = some initStore :=
  ⟨by decide,
   symlinked_dir_not_classified_not_traversed exTFS3 dotPath "sym".toList
     "/real".toList initStore 0 (by decide) (by decide) (by decide) (by decide)
     (by decide) (by decide) (by decide) (by decide) (by decide)⟩

/-- Witness for C7: the hidden header backup `.h_backup.h` classifies as a
header but is dropped; on the same oracle a hidden `x.cmake`-style name in
the allowed set would be kept. -/
theorem hidden_file_policy_witness :
    categorize_file ".h_backup.h".toList = CAT_HEADER ∧
    process_entry exTFS2 "./sib.c".toList ".h_backup.h".toList initStore =
      (if categorize_file ".h_backup.h".toList = CAT_MAKEFILE
          ∨ categorize_file ".h_backup.h".toList = CAT_MESON
          ∨ categorize_file ".h_backup.h".toList = CAT_CMAKE
          ∨ categorize_file ".h_backup.h".toList = CAT_NINJA
          ∨ categorize_file ".h_backup.h".toList = CAT_BAZEL then
        match exTFS2.realpath "./sib.c".toList with
        | none => none
        | some abs => some (appendStore initStore (categorize_file ".h_backup.h".toList) abs)
      else some initStore) := by
  refine ⟨by decide, ?_⟩
  exact hidden_file_policy exTFS2 "./sib.c".toList ".h_backup.h".toList initStore
    (by decide) (by decide) (by decide)

/-- Store listing `/b.c` before `/a.c` in the source category (one
enumeration order of the same tree). -/
def exStore9a : Store :=
  fun c => if c = CAT_SOURCE then ["/b.c".toList, "/a.c".toList] else []

/-- The same files discovered in the opposite order. -/
def exStore9b : Store :=
  fun c => if c = CAT_SOURCE then ["/a.c".toList, "/b.c".toList] else []

/-- C9: the merged output is a deterministic function of the per-category
file sets.  If two runs populate each category with the same multiset of
accepted absolute paths — in whatever discovery order — the bytes written to
`merged.txt` coincide (including a potential abort at the same point): the
per-category `qsort` and the fixed category loop canonicalize discovery
order. -/
theorem merge_deterministic (fs : WFS) (st1 st2 : Store)
    (h : ∀ c, List.Perm (st1 c) (st2 c)) :
    mergeOutput fs st1 = mergeOutput fs st2 := by
  unfold mergeOutput emissionPaths
  have he : (fun c => sortPaths (st1 c)) = fun c => sortPaths (st2 c) :=
    funext fun c => sortPaths_eq_of_perm (h c)
  rw [he]

/-- Witness for C9: two opposite discovery orders of the same two source
files produce identical output bytes. -/
theorem merge_deterministic_witness :
    mergeOutput exWFS0 exStore9a = mergeOutput exWFS0 exStore9b :=
  merge_deterministic exWFS0 exStore9a exStore9b (fun c => by cases c <;> decide)

theorem mergeFiles_cons (fs : WFS) (p : List Char) (ps : List (List Char)) (b : Bool) :
    mergeFiles fs (p :: ps) b =
      (write_file fs p b).bind (fun r =>
        (mergeFiles fs ps r.1).map (fun r2 => (r2.1, r.2 ++ r2.2))) := rfl

/-- C8: a zero-byte file (opened fine, `stat` size 0) is invisible to the
merge: `write_file` succeeds, emits nothing and leaves the first-file flag
untouched, and deleting the path from any position of the write list leaves
the entire merge result — including the preamble decision for every later
file — unchanged. -/
theorem zero_byte_file_invisible (fs : WFS) (p : List Char)
    (xs ys : List (List Char)) (isFirst : Bool)
    (hopen : fs.canOpen p = true) (hsize : fs.statSize p = some 0) :
    write_file fs p isFirst = some (isFirst, []) ∧
    mergeFiles fs (xs ++ p :: ys) isFirst = mergeFiles fs (xs ++ ys) isFirst := by
  have hw : ∀ b, write_file fs p b = some (b, []) := by
    intro b
    unfold write_file
    rw [hsize]
    simp [hopen]
  refine ⟨hw isFirst, ?_⟩
  induction xs generalizing isFirst with
  | nil =>
      simp only [List.nil_append]
      rw [mergeFiles_cons, hw isFirst]
      cases hm : mergeFiles fs ys isFirst with
      | none => simp [hm]
      | some r2 => simp [hm]
  | cons x xs ih =>
      simp only [List.cons_append]
      rw [mergeFiles_cons, mergeFiles_cons]
      cases hwx : write_file fs x isFirst with
      | none => simp
      | some r => simp [ih r.1]

/-- Witness for C8: dropping the zero-byte `/p/e.c` from the middle of a
write list does not change the merge result. -/
theorem zero_byte_file_invisible_witness :
    exWFS4.canOpen "/p/e.c".toList = true ∧
    exWFS4.statSize "/p/e.c".toList = some 0 ∧
    write_file exWFS4 "/p/e.c".toList true = some (true, []) ∧
    mergeFiles exWFS4 (["/p/a.c".toList] ++ "/p/e.c".toList :: ["/p/b.c".toList]) true
      = mergeFiles exWFS4 (["/p/a.c".toList] ++ ["/p/b.c".toList]) true :=
  ⟨by decide, by decide,
   (zero_byte_file_invisible exWFS4 "/p/e.c".toList ["/p/a.c".toList]
      ["/p/b.c".toList] true (by decide) (by decide)).1,
   (zero_byte_file_invisible exWFS4 "/p/e.c".toList ["/p/a.c".toList]
      ["/p/b.c".toList] true (by decide) (by decide)).2⟩

/-- Example store for the C4 partition: one non-empty and one zero-byte
source file. -/
def exStore48 : Store :=
  fun c => if c = CAT_SOURCE then ["/p/a.c".toList, "/p/e.c".toList] else []

/-- Merge oracle for the C4 partition: `/p/e.c` stats as empty, everything
else as 3 bytes of content. -/
def exWFS48 : WFS :=
  ⟨fun _ => true,
   fun p => if p = "/p/e.c".toList then some 0 else some 3,
   fun _ => true, fun _ => "abc".toList, true⟩

/-- A successful `write_file` call classifies its path: either it framed the
file (`writtenP`) or it silently skipped it (`skippedP`), never both. -/
theorem write_file_some_classifies (fs : WFS) (p : List Char) (b : Bool)
    (r : Bool × List Char) (hw : write_file fs p b = some r) :
    (writtenP fs p = true ∧ skippedP fs p = false) ∨
    (writtenP fs p = false ∧ skippedP fs p = true) := by
  unfold write_file at hw
  cases hco : fs.canOpen p with
  | false => rw [hco] at hw; simp at hw
  | true =>
      rw [hco] at hw
      cases hss : fs.statSize p with
      | none => right; simp [writtenP, skippedP, hco, hss]
      | some n =>
          cases n with
          | zero => right; simp [writtenP, skippedP, hco, hss]
          | succ m =>
              rw [hss] at hw
              cases hro : fs.readOk p with
              | false => rw [hro] at hw; simp at hw
              | true => left; simp [writtenP, skippedP, hco, hss, hro]

/-- A successful merge partitions its path list into framed and skipped
files. -/
theorem mergeFiles_some_partition (fs : WFS) (ps : List (List Char)) :
    ∀ b r, mergeFiles fs ps b = some r →
      (ps.filter (writtenP fs)).length + (ps.filter (skippedP fs)).length
        = ps.length := by
  induction ps with
  | nil => intro b r _; simp
  | cons p ps ih =>
      intro b r h
      rw [mergeFiles_cons] at h
      cases hw : write_file fs p b with
      | none => rw [hw] at h; simp at h
      | some r1 =>
          rw [hw, Option.some_bind] at h
          cases hm : mergeFiles fs ps r1.1 with
          | none => rw [hm] at h; simp at h
          | some r2 =>
              have hrec := ih r1.1 r2 hm
              rcases write_file_some_classifies fs p b r1 hw with ⟨h1, h2⟩ | ⟨h1, h2⟩
              · rw [List.filter_cons_of_pos h1, List.filter_cons_of_neg (by simp [h2])]
                simp only [List.length_cons]
                omega
              · rw [List.filter_cons_of_neg (by simp [h1]), List.filter_cons_of_pos h2]
                simp only [List.length_cons]
                omega

/-- The emitted path sequence is exactly as long as the pre-merge
`total_files` count (sorting permutes each category in place). -/
theorem emissionPaths_length (st : Store) :
    (emissionPaths st).length = total_files st := by
  unfold emissionPaths total_files
  induction catList with
  | nil => simp
  | cons c cs ih =>
      rw [List.flatMap_cons, List.length_append, List.map_cons, List.sum_cons,
        (sortPaths_perm (st c)).length_eq, ih]

/-- C4 (amended) theorem: on a successful run the completion message reports
`total_files` — the number of accepted files in the store — which equals the
number of files actually framed into the output plus the number of zero-byte
(or unstatable) files silently skipped; the skipped files are included in
the reported count. -/
theorem reported_total_partition (fs : WFS) (st : Store)
    (h : mergeOutput fs st ≠ none) :
    total_files st = writtenCount fs st + skippedCount fs st := by
  unfold mergeOutput at h
  cases hm : mergeFiles fs (emissionPaths st) true with
  | none => rw [hm] at h; simp at h
  | some r =>
      have hp := mergeFiles_some_partition fs (emissionPaths st) true r hm
      unfold writtenCount skippedCount
      rw [← emissionPaths_length st]
      omega

/-- C4 counterexample: a store holding a single zero-byte source file; the
merge succeeds writing nothing, yet `main` reports 1 merged file while 0
files were actually written — the reported count is not the count of files
written. -/
theorem reported_count_not_written_cx :
    mergeOutput exWFS4 exStore4 = some [] ∧
    total_files exStore4 = 1 ∧
    writtenCount exWFS4 exStore4 = 0 ∧
    total_files exStore4 ≠ writtenCount exWFS4 exStore4 := by
  refine ⟨by rfl, by decide, by decide, by decide⟩

/-- Witness for the amended C4 theorem: a store with one non-empty and one
zero-byte source file; the run succeeds, reporting 2 = 1 written + 1
skipped. -/
theorem reported_total_partition_witness :
    mergeOutput exWFS48 exStore48 ≠ none ∧
    total_files exStore48 = 2 ∧
    writtenCount exWFS48 exStore48 = 1 ∧
    skippedCount exWFS48 exStore48 = 1 ∧
    total_files exStore48 = writtenCount exWFS48 exStore48 + skippedCount exWFS48 exStore48 :=
  ⟨by decide, by decide, by decide, by decide,
   reported_total_partition exWFS48 exStore48 (by decide)⟩

/-- Order of emitted entries: a strictly earlier category, or the same
category with `strcmp`-ordered paths. -/
def emRel (a b : FileCategory × List Char) : Prop :=
  catIdx a.1 < catIdx b.1 ∨ (a.1 = b.1 ∧ strLe a.2 b.2)

theorem pairwise_emission_blocks (st : Store) (cs : List FileCategory)
    (hcs : cs.Pairwise (fun a b => catIdx a < catIdx b)) :
    List.Pairwise emRel
      (cs.flatMap (fun c => (sortPaths (st c)).map (fun p => (c, p)))) := by
  induction cs with
  | nil => simp
  | cons c cs ih =>
      rw [List.flatMap_cons, List.pairwise_append]
      refine ⟨?_, ih (List.Pairwise.of_cons hcs), ?_⟩
      · refine List.Pairwise.map _ ?_ (sortPaths_sorted (st c))
        intro a b hab
        exact Or.inr ⟨rfl, hab⟩
      · intro a ha b hb
        obtain ⟨pa, _, rfl⟩ := List.mem_map.mp ha
        obtain ⟨c2, hc2, hb2⟩ := List.mem_flatMap.mp hb
        obtain ⟨pb, _, rfl⟩ := List.mem_map.mp hb2
        exact Or.inl (List.rel_of_pairwise_cons hcs hc2)

theorem filter_block_eq (c d : FileCategory) (l : List (List Char)) :
    ((l.map (fun p => (d, p))).filter (fun e => e.1 == c))
      = if d = c then l.map (fun p => (d, p)) else [] := by
  rw [List.filter_map]
  by_cases hdc : d = c
  · subst hdc
    rw [if_pos rfl]
    have he : ((fun e => e.1 == d) ∘ fun p => ((d, p) : FileCategory × List Char))
        = fun _ => true := by
      funext p
      simp
    rw [he, List.filter_true]
  · rw [if_neg hdc]
    have he : ((fun e => e.1 == c) ∘ fun p => ((d, p) : FileCategory × List Char))
        = fun _ => false := by
      funext p
      simp [hdc]
    rw [he, List.filter_false, List.map_nil]

theorem filter_emission_eq (st : Store) (c : FileCategory) (cs : List FileCategory)
    (hnd : cs.Nodup) (hc : c ∈ cs) :
    ((cs.flatMap (fun d => (sortPaths (st d)).map (fun p => (d, p)))).filter
        (fun e => e.1 == c)).map Prod.snd = sortPaths (st c) := by
  induction cs with
  | nil => cases hc
  | cons d ds ih =>
      rw [List.flatMap_cons, List.filter_append, List.map_append, filter_block_eq]
      by_cases hdc : d = c
      · subst hdc
        rw [if_pos rfl]
        have hrest : ((ds.flatMap (fun d2 => (sortPaths (st d2)).map
            (fun p => (d2, p)))).filter (fun e => e.1 == d)) = [] := by
          rw [List.filter_eq_nil_iff]
          intro a ha
          obtain ⟨c2, hc2, hb2⟩ := List.mem_flatMap.mp ha
          obtain ⟨pb, _, rfl⟩ := List.mem_map.mp hb2
          have hne : c2 ≠ d := fun he => (List.nodup_cons.mp hnd).1 (he ▸ hc2)
          simpa using hne
        rw [hrest]
        simp [List.map_map, Function.comp]
      · rw [if_neg hdc]
        simp only [List.map_nil, List.nil_append]
        exact ih (List.nodup_cons.mp hnd).2
          ((List.mem_cons.mp hc).resolve_left (fun h => hdc h.symm))

/-- C1: the sequence of `(category, path)` pairs `main` hands to
`write_file` is pairwise ordered by `emRel` — entries of an earlier
category in the fixed `CAT_MAKEFILE .. CAT_SOURCE` enumeration come
strictly first, and entries of the same category appear in `strcmp` order
of their stored absolute paths — independent of the discovery order held in
the store.  The files actually framed into `merged.txt` are the `writtenP`
filter of this sequence, so they inherit the same order; and per category
the emitted paths are exactly the store's paths, sorted. -/
theorem output_grouped_and_sorted (fs : WFS) (st : Store) :
    List.Pairwise emRel (mainEmission st) ∧
    List.Pairwise emRel ((mainEmission st).filter (fun e => writtenP fs e.2)) ∧
    ∀ c ∈ catList,
      ((mainEmission st).filter (fun e => e.1 == c)).map Prod.snd
          = sortPaths (st c) ∧
        List.Perm (sortPaths (st c)) (st c) := by
  have hpw := pairwise_emission_blocks st catList (by decide)
  refine ⟨hpw, List.Pairwise.sublist (List.filter_sublist _) hpw, ?_⟩
  intro c hc
  exact ⟨filter_emission_eq st c catList (by decide) hc, sortPaths_perm (st c)⟩

/-- Witness for C1 at a concrete store discovered in reverse order. -/
theorem output_grouped_and_sorted_witness :
    List.Pairwise emRel (mainEmission exStore9a) ∧
    ((mainEmission exStore9a).filter (fun e => e.1 == CAT_SOURCE)).map Prod.snd
        = sortPaths (exStore9a CAT_SOURCE) ∧
    sortPaths (exStore9a CAT_SOURCE) = ["/a.c".toList, "/b.c".toList] :=
  ⟨(output_grouped_and_sorted exWFS0 exStore9a).1,
   ((output_grouped_and_sorted exWFS0 exStore9a).2.2 CAT_SOURCE (by decide)).1,
   by decide⟩

end CCodemerge
